import Mathlib

/-!
A verification development for two connector components:

* the Vectara destination indexer (destination_vectara/indexer.py): corpus
  binding in check(), OAuth token caching and refresh, pre_sync/delete
  request behaviour, and metadata normalization with its JSON encoding;
* the SQL cache base class (airbyte_lib/caches/bases/sql.py): identifier
  normalization, batch finalization (staging into a temp table, ensuring
  the final table, append/merge, temp-table drop), and the generated MERGE
  statement's key structure.

Python strings are modelled through their character lists, machine-level
numbers as Nat/Int, remote services (HTTP endpoints, the SQL engine) as
explicit inputs/outputs or small state machines, and fallible operations
return Except/Option.  Each statement executed inside a SQLAlchemy
"engine.begin()" block is transactional, so a failed statement leaves the
database state unchanged.
-/

namespace AirbyteSpec

/-! ### Character and string groundwork

Python string primitives used by the sources, modelled on character
lists: str.lower (ASCII fragment, which is what Char.toLower implements),
single-character str.replace, and the lexicographic comparison that
drives max() over batch-id strings.
-/

/-- The action of a single-character str.replace on one character. -/
def replChar (a b : Char) (c : Char) : Char := if c = a then b else c

/-- Python's single-character str.replace: a character-wise map. -/
def pyReplaceChar (a b : Char) (s : List Char) : List Char :=
  s.map (replChar a b)

/-- Python's str.lower on one character (ASCII fragment): uppercase
letters move down by 32, everything else is untouched.  This is exactly
Char.toLower, which we reuse. -/
def pyLowerChar (c : Char) : Char := Char.toLower c

/-- Python's str.lower, character-wise over the string. -/
def pyLower (s : List Char) : List Char := s.map pyLowerChar

/-- Python's lexicographic string comparison (code-point order), used by
max() over batch ids. -/
def lexLt : List Char → List Char → Bool
  | [], [] => false
  | [], _ :: _ => true
  | _ :: _, [] => false
  | a :: as, b :: bs => if a < b then true else if b < a then false else lexLt as bs

theorem charToNat_ofNat {n : Nat} (h : n < 55296) : (Char.ofNat n).toNat = n := by
  have hv : n.isValidChar := Or.inl h
  simp only [Char.ofNat, dif_pos hv, Char.ofNatAux, Char.toNat]
  simp [UInt32.toNat, BitVec.toNat_ofNat]

theorem char_toNat_lt (c : Char) : c.toNat < 1114112 := by
  rcases c.valid with h | h
  · exact Nat.lt_trans h (by norm_num)
  · exact h.2

theorem pyLowerChar_toNat_of_upper {c : Char}
    (h : 65 ≤ c.toNat ∧ c.toNat ≤ 90) :
    (pyLowerChar c).toNat = c.toNat + 32 := by
  unfold pyLowerChar Char.toLower
  simp only [ge_iff_le]
  rw [if_pos h]
  exact charToNat_ofNat (by omega)

theorem pyLowerChar_of_not_upper {c : Char}
    (h : ¬(65 ≤ c.toNat ∧ c.toNat ≤ 90)) :
    pyLowerChar c = c := by
  unfold pyLowerChar Char.toLower
  simp only [ge_iff_le]
  rw [if_neg h]

theorem pyLowerChar_idem (c : Char) :
    pyLowerChar (pyLowerChar c) = pyLowerChar c := by
  by_cases h : 65 ≤ c.toNat ∧ c.toNat ≤ 90
  · apply pyLowerChar_of_not_upper
    rw [pyLowerChar_toNat_of_upper h]
    omega
  · rw [pyLowerChar_of_not_upper h, pyLowerChar_of_not_upper h]

/-! ### SQL identifier normalization (sql.py, _normalize_column_name and
_normalize_table_name)

Both source methods are the same pipeline:
raw_name.lower().replace(" ", "_").replace("-", "_").
-/

/-- The name normalization shared by _normalize_column_name and
_normalize_table_name: lowercase, then replace spaces and hyphens with
underscores. -/
def normalizeName (s : String) : String :=
  String.mk (pyReplaceChar '-' '_' (pyReplaceChar ' ' '_' (pyLower s.data)))

/-- sql.py _normalize_column_name. -/
def normalizeColumnName (rawName : String) : String := normalizeName rawName

/-- sql.py _normalize_table_name. -/
def normalizeTableName (rawName : String) : String := normalizeName rawName

/-- The per-character action of normalizeName. -/
def normChar (c : Char) : Char :=
  replChar '-' '_' (replChar ' ' '_' (pyLowerChar c))

theorem normalizeName_mk (l : List Char) :
    normalizeName (String.mk l) = String.mk (l.map normChar) := by
  unfold normalizeName pyReplaceChar pyLower normChar
  simp only [List.map_map]
  rfl

theorem normalizeName_eq_map (s : String) :
    normalizeName s = String.mk (s.data.map normChar) := normalizeName_mk s.data

theorem pyLowerChar_underscore : pyLowerChar '_' = '_' := by decide

theorem normChar_idem (c : Char) : normChar (normChar c) = normChar c := by
  by_cases hsp : pyLowerChar c = ' '
  · have h1 : normChar c = '_' := by
      unfold normChar replChar
      rw [hsp, if_pos rfl]
      decide
    rw [h1]
    decide
  · by_cases hd : pyLowerChar c = '-'
    · have h1 : normChar c = '_' := by
        unfold normChar replChar
        rw [hd]
        decide
      rw [h1]
      decide
    · have h1 : normChar c = pyLowerChar c := by
        unfold normChar replChar
        rw [if_neg hsp, if_neg hd]
      rw [h1]
      unfold normChar replChar
      rw [pyLowerChar_idem c, if_neg hsp, if_neg hd]

theorem map_self_idem {α : Type} {f : α → α} (hf : ∀ a, f (f a) = f a) :
    ∀ l : List α, (l.map f).map f = l.map f
  | [] => rfl
  | a :: l => by simp only [List.map_cons, hf, map_self_idem hf l]

theorem normalizeName_idem (s : String) :
    normalizeName (normalizeName s) = normalizeName s := by
  rw [normalizeName_eq_map s]
  rw [normalizeName_mk]
  exact congrArg String.mk (map_self_idem normChar_idem _)

/-! ### Order facts about lexLt, backing Python's max() over strings. -/

theorem lexLt_trans : ∀ a b c : List Char,
    lexLt a b = true → lexLt b c = true → lexLt a c = true
  | [], [], _, h1, _ => by simp [lexLt] at h1
  | [], _ :: _, [], _, h2 => by simp [lexLt] at h2
  | [], _ :: _, _ :: _, _, _ => rfl
  | _ :: _, [], _, h1, _ => by simp [lexLt] at h1
  | _ :: _, _ :: _, [], _, h2 => by simp [lexLt] at h2
  | a :: as, b :: bs, c :: cs, h1, h2 => by
    unfold lexLt at h1 h2 ⊢
    by_cases hab : a < b
    · by_cases hbc : b < c
      · rw [if_pos (lt_trans hab hbc)]
      · rw [if_neg hbc] at h2
        by_cases hcb : c < b
        · rw [if_pos hcb] at h2
          exact absurd h2 (by simp)
        · have hbc' : b = c := le_antisymm (le_of_not_lt hcb) (le_of_not_lt hbc)
          rw [if_pos (hbc' ▸ hab)]
    · by_cases hba : b < a
      · rw [if_neg hab, if_pos hba] at h1
        exact absurd h1 (by simp)
      · have hab' : a = b := le_antisymm (le_of_not_lt hba) (le_of_not_lt hab)
        subst hab'
        rw [if_neg hab, if_neg hba] at h1
        by_cases hac : a < c
        · rw [if_pos hac]
        · rw [if_neg hac] at h2 ⊢
          by_cases hca : c < a
          · rw [if_pos hca] at h2
            exact absurd h2 (by simp)
          · rw [if_neg hca] at h2 ⊢
            exact lexLt_trans as bs cs h1 h2

theorem lexLt_eq_of_not_lt : ∀ a b : List Char,
    lexLt a b = false → lexLt b a = false → a = b
  | [], [], _, _ => rfl
  | [], _ :: _, h1, _ => by simp [lexLt] at h1
  | _ :: _, [], _, h2 => by simp [lexLt] at h2
  | a :: as, b :: bs, h1, h2 => by
    unfold lexLt at h1 h2
    by_cases hab : a < b
    · rw [if_pos hab] at h1
      exact absurd h1 (by simp)
    · by_cases hba : b < a
      · rw [if_pos hba] at h2
        exact absurd h2 (by simp)
      · have hab' : a = b := le_antisymm (le_of_not_lt hba) (le_of_not_lt hab)
        rw [if_neg hab, if_neg hba] at h1
        rw [if_neg hba, if_neg hab] at h2
        rw [hab', lexLt_eq_of_not_lt as bs h1 h2]

theorem lexLt_irrefl : ∀ l : List Char, lexLt l l = false
  | [] => rfl
  | a :: as => by
    unfold lexLt
    rw [if_neg (lt_irrefl a), if_neg (lt_irrefl a)]
    exact lexLt_irrefl as

theorem lexLt_false_trans {a b c : List Char}
    (h1 : lexLt a b = false) (h2 : lexLt b c = false) : lexLt a c = false := by
  by_cases hac : lexLt a c = true
  · by_cases hcb : lexLt c b = true
    · exact absurd (lexLt_trans a c b hac hcb) (by simp [h1])
    · have hbc : b = c :=
        lexLt_eq_of_not_lt b c h2 (Bool.not_eq_true _ ▸ hcb)
      rw [← hbc] at hac
      exact absurd hac (by simp [h1])
  · exact Bool.not_eq_true _ ▸ hac

/-- One step of Python's max() over strings: keep the accumulator unless the
new item compares strictly greater. -/
def pyMaxStr (acc s : String) : String := if lexLt acc.data s.data then s else acc

theorem foldl_pyMaxStr_mem {β : Type} : ∀ (bs : List (String × β)) (acc : String),
    bs.foldl (fun a p => pyMaxStr a p.1) acc = acc ∨
      (bs.foldl (fun a p => pyMaxStr a p.1) acc) ∈ bs.map Prod.fst
  | [], _ => Or.inl rfl
  | x :: xs, acc => by
    simp only [List.foldl_cons, List.map_cons]
    rcases foldl_pyMaxStr_mem xs (pyMaxStr acc x.1) with h | h
    · rw [h]
      unfold pyMaxStr
      by_cases hlt : lexLt acc.data x.1.data = true
      · rw [if_pos hlt]
        exact Or.inr (List.mem_cons_self _ _)
      · rw [if_neg hlt]
        exact Or.inl rfl
    · exact Or.inr (List.mem_cons_of_mem _ h)

theorem foldl_pyMaxStr_ub {β : Type} : ∀ (bs : List (String × β)) (acc : String),
    lexLt (bs.foldl (fun a p => pyMaxStr a p.1) acc).data acc.data = false ∧
      ∀ k ∈ bs.map Prod.fst,
        lexLt (bs.foldl (fun a p => pyMaxStr a p.1) acc).data k.data = false
  | [], acc => ⟨lexLt_irrefl _, by simp⟩
  | x :: xs, acc => by
    simp only [List.foldl_cons, List.map_cons]
    obtain ⟨h1, h2⟩ := foldl_pyMaxStr_ub xs (pyMaxStr acc x.1)
    by_cases hlt : lexLt acc.data x.1.data = true
    · have hstep : pyMaxStr acc x.1 = x.1 := by
        unfold pyMaxStr
        rw [if_pos hlt]
      rw [hstep] at h1 h2 ⊢
      refine ⟨?_, ?_⟩
      · by_cases hra :
          lexLt (xs.foldl (fun a p => pyMaxStr a p.1) x.1).data acc.data = true
        · exact absurd (lexLt_trans _ _ _ hra hlt) (by simp [h1])
        · exact Bool.not_eq_true _ ▸ hra
      · intro k hk
        rcases List.mem_cons.mp hk with hx | hnext
        · rw [hx]
          exact h1
        · exact h2 k hnext
    · have hstep : pyMaxStr acc x.1 = acc := by
        unfold pyMaxStr
        rw [if_neg hlt]
      rw [hstep] at h1 h2 ⊢
      refine ⟨h1, ?_⟩
      intro k hk
      rcases List.mem_cons.mp hk with hx | hnext
      · rw [hx]
        exact lexLt_false_trans h1 (Bool.not_eq_true _ ▸ hlt)
      · exact h2 k hnext

/-- Python's max(batches.keys()) on a non-empty dict: fold the comparison
starting from the first key. -/
def maxKey {β : Type} (b : String × β) (bs : List (String × β)) : String :=
  bs.foldl (fun a p => pyMaxStr a p.1) b.1

theorem maxKey_mem {β : Type} (b : String × β) (bs : List (String × β)) :
    maxKey b bs ∈ (b :: bs).map Prod.fst := by
  unfold maxKey
  rcases foldl_pyMaxStr_mem bs b.1 with h | h
  · rw [h]
    exact List.mem_cons_self _ _
  · exact List.mem_cons_of_mem _ h

theorem maxKey_ub {β : Type} (b : String × β) (bs : List (String × β)) :
    ∀ k ∈ (b :: bs).map Prod.fst, lexLt (maxKey b bs).data k.data = false := by
  unfold maxKey
  obtain ⟨h1, h2⟩ := foldl_pyMaxStr_ub bs b.1
  intro k hk
  rcases List.mem_cons.mp hk with hx | hnext
  · rw [hx]
    exact h1
  · exact h2 k hnext

/-! ### SQL cache model (sql.py)

The database reachable through the SQLAlchemy engine is modelled as an
association list from table name to the table's rows; the row type is a
parameter.  Every statement runs inside an engine.begin() transaction, so a
failing statement leaves the state unchanged; the model returns the
pre-statement state together with the error.
-/

/-- sql.py RecordDedupeMode. -/
inductive RecordDedupeMode where
  | append
  | replace
deriving DecidableEq

/-- The cache configuration and class attributes that
_finalize_batches and its callees consult: the dedupe mode, the
table-name prefix and suffix from the config, and the
supports_merge_insert class attribute (False in the base class). -/
structure SQLCacheModel where
  dedupeMode : RecordDedupeMode
  tablePfx : String
  tableSfx : String
  supportsMergeInsert : Bool

/-- The visible database: table name to rows, most recent binding first. -/
structure DbState (α : Type) where
  tables : List (String × List α)
deriving DecidableEq

/-- Look a table up by name. -/
def DbState.lookup {α : Type} (st : DbState α) (n : String) : Option (List α) :=
  (st.tables.find? (fun p => p.1 == n)).map Prod.snd

/-- Bind a table name to rows, shadowing and erasing any previous binding. -/
def DbState.setTable {α : Type} (st : DbState α) (n : String) (rows : List α) :
    DbState α :=
  ⟨(n, rows) :: st.tables.filter (fun p => !(p.1 == n))⟩

/-- sqlalchemy.inspect(...).has_table, as used by _table_exists. -/
def DbState.tableExists {α : Type} (st : DbState α) (n : String) : Bool :=
  (st.lookup n).isSome

/-- A DROP TABLE statement (_drop_temp_table): fails when the table is
missing. -/
def dropTableStmt {α : Type} (n : String) (st : DbState α) :
    Except String (DbState α) :=
  if (st.lookup n).isSome then .ok ⟨st.tables.filter (fun p => !(p.1 == n))⟩
  else .error ("no such table: " ++ n)

/-- One pandas DataFrame.to_sql call with if_exists="replace": drop any
previous contents and write exactly these rows. -/
def replaceWrite {α : Type} (n : String) (rows : List α) (st : DbState α) :
    DbState α :=
  st.setTable n rows

/-- sql.py get_sql_table_name: prefix + stream + suffix, normalized. -/
def getSqlTableName (cfg : SQLCacheModel) (streamName : String) : String :=
  normalizeTableName (cfg.tablePfx ++ streamName ++ cfg.tableSfx)

/-- sql.py _get_temp_table_name.  The source computes
"batch_id or str(ulid.ULID())": a None or empty batch id falls back to a
fresh ULID, modelled by the freshUlid argument. -/
def getTempTableName (streamName : String) (batchId : Option String)
    (freshUlid : String) : String :=
  let bid := match batchId with
    | none => freshUlid
    | some b => if b = "" then freshUlid else b
  normalizeTableName (streamName ++ "_" ++ bid)

/-- sql.py _ensure_final_table_exists with create_if_missing=True. -/
def ensureFinalTableExists {α : Type} (cfg : SQLCacheModel) (streamName : String)
    (st : DbState α) : DbState α :=
  let name := getSqlTableName cfg streamName
  if (st.lookup name).isSome then st else st.setTable name []

/-- The TypeError raised by the call self._create_table_for_loading(table_name)
at the top of _write_files_to_new_table: _create_table_for_loading requires
both stream_name and batch_id, so the one-argument call raises before any
statement runs. -/
def missingBatchIdError : String :=
  "TypeError: _create_table_for_loading() missing 1 required positional argument: batch_id"

/-- The TypeError raised when _write_temp_table_to_final_table calls
_merge_temp_table_to_final_table(temp_table_name, final_table_name): the
helper requires stream_name as well, so the two-argument call raises before
the MERGE statement is built. -/
def missingStreamNameMergeError : String :=
  "TypeError: _merge_temp_table_to_final_table() missing 1 required positional argument: stream_name"

/-- The TypeError raised when _write_temp_table_to_final_table calls
_append_temp_table_to_final_table(temp_table_name, final_table_name): the
helper requires stream_name as well, so the two-argument call raises before
the INSERT statement is built. -/
def missingStreamNameAppendError : String :=
  "TypeError: _append_temp_table_to_final_table() missing 1 required positional argument: stream_name"

/-- sql.py _write_files_to_new_table.  Its first statement is
self._create_table_for_loading(table_name), a call with one argument to a
method that requires stream_name and batch_id; every call therefore raises
TypeError before any SQL statement runs and leaves the database unchanged.
The staging loop below that call (read each file, write it with a to_sql
if_exists="replace" call) is unreachable; stagingLoop below models it. -/
def writeFilesToNewTable {α : Type} (files : List (List α)) (tableName : String)
    (st : DbState α) : Except String (DbState α) :=
  .error missingBatchIdError

/-- The staging loop written in _write_files_to_new_table after the
_create_table_for_loading call (unreachable behind that call's TypeError):
each staged file is written with a pandas to_sql if_exists="replace" call,
and each such call replaces the whole table, so only the last file's rows
would survive. -/
def stagingLoop {α : Type} (files : List (List α)) (tableName : String)
    (st : DbState α) : DbState α :=
  files.foldl (fun s rows => replaceWrite tableName rows s) st

/-- sql.py _write_temp_table_to_final_table.  In replace (dedupe) mode
without merge-insert support the raise NotImplementedError is the branch's
first statement.  In the two remaining branches the source calls the merge
or append helper with two arguments while the helper also requires
stream_name, so each raises TypeError before building any SQL statement.
Every branch therefore fails with the database unchanged; the second
component is the state afterwards. -/
def writeTempTableToFinalTable {α : Type} (cfg : SQLCacheModel)
    (tempName finalName : String) (st : DbState α) :
    Option String × DbState α :=
  if cfg.dedupeMode = .replace then
    if !cfg.supportsMergeInsert then
      (some "Deduping was requested but merge-insert is not yet supported.", st)
    else
      (some missingStreamNameMergeError, st)
  else
    (some missingStreamNameAppendError, st)

/-- The outcome of one finalize call: the error it raised, if any, and
the database state it leaves behind. -/
structure FinalizeOutcome (α : Type) where
  err : Option String
  db : DbState α
deriving DecidableEq

/-- sql.py _finalize_batches: collect all batch files, pick the maximum
batch id, stage into the temp table, ensure the final table, write temp to
final, then drop the temp table.  There is no try/finally: the first
failing step stops the sequence, and since _write_files_to_new_table raises
TypeError unconditionally, every call with batches stops there with the
database untouched (the later arms mirror the written source statements).
Python's max() on an empty dict raises, modelled by the empty-batches error
case. -/
def finalizeBatches {α : Type} (cfg : SQLCacheModel) (freshUlid : String)
    (streamName : String) (batches : List (String × List α)) (st : DbState α) :
    FinalizeOutcome α :=
  match batches with
  | [] => ⟨some "max() arg is an empty sequence", st⟩
  | b :: bs =>
    let files := (b :: bs).map Prod.snd
    let tempName := getTempTableName streamName (some (maxKey b bs)) freshUlid
    match writeFilesToNewTable files tempName st with
    | .error e => ⟨some e, st⟩
    | .ok st1 =>
      let st2 := ensureFinalTableExists cfg streamName st1
      match writeTempTableToFinalTable cfg tempName
          (getSqlTableName cfg streamName) st2 with
      | (some e, st3) => ⟨some e, st3⟩
      | (none, st3) =>
        match dropTableStmt tempName st3 with
        | .error e => ⟨some e, st3⟩
        | .ok st4 => ⟨none, st4⟩

/-- sql.py _get_primary_keys: primary keys are not yet read from the
catalog; always the empty list. -/
def getPrimaryKeys (streamName : String) : List String := []

/-- sql.py _get_sql_column_definitions, keys only: the normalized declared
properties plus the two fixed metadata columns. -/
def getSqlColumnDefinitions (schemaProps : List String) : List String :=
  schemaProps.map normalizeColumnName ++ ["_airbyte_extracted_at", "_airbyte_loaded_at"]

/-- The column structure of the MERGE statement built by
_merge_temp_table_to_final_table: the join keys (pk_columns), the SET
columns (columns - pk_columns), and the INSERT column list. -/
structure MergeStatement where
  pkColumns : List String
  nonPkColumns : List String
  insertColumns : List String

/-- Build the MERGE statement's column lists as the source does. -/
def mergeStatementFor (streamName : String) (schemaProps : List String) :
    MergeStatement :=
  let columns := getSqlColumnDefinitions schemaProps
  let pk := getPrimaryKeys streamName
  { pkColumns := pk
    nonPkColumns := columns.filter (fun c => !(pk.contains c))
    insertColumns := columns }

/-! ### Vectara indexer model (indexer.py)

The remote service is an input: check() receives the corpora the
list-corpora call returns and the corpus id a create-corpus call would
allocate; requests the indexer would issue are collected as a trace.
-/

/-- Modelled from the spec: the CDK's stream-tag metadata field name
(METADATA_STREAM_FIELD, imported by indexer.py from airbyte_cdk). -/
def metadataStreamField : String := "_ab_stream"

/-- Modelled from the spec: the CDK's record-id metadata field name
(METADATA_RECORD_ID_FIELD, imported by indexer.py from airbyte_cdk). -/
def metadataRecordIdField : String := "_ab_record_id"

/-- A corpus as returned by list-corpora: an id and a name. -/
structure Corpus where
  id : Nat
  name : String
deriving DecidableEq

/-- A filter attribute in a create-corpus request body. -/
structure FilterAttribute where
  name : String
  indexed : Bool
  attrType : String
  level : String
deriving DecidableEq

/-- The body of a create-corpus request. -/
structure CreateCorpusRequest where
  name : String
  filterAttributes : List FilterAttribute
deriving DecidableEq

/-- The create-corpus request check() issues when no corpus matches:
the configured name plus the stream-tag and record-id indexed text
document-level filter attributes. -/
def createCorpusRequest (corpusName : String) : CreateCorpusRequest :=
  { name := corpusName
    filterAttributes :=
      [{ name := metadataStreamField
         indexed := true
         attrType := "FILTER_ATTRIBUTE_TYPE__TEXT"
         level := "FILTER_ATTRIBUTE_LEVEL__DOCUMENT" },
       { name := metadataRecordIdField
         indexed := true
         attrType := "FILTER_ATTRIBUTE_TYPE__TEXT"
         level := "FILTER_ATTRIBUTE_LEVEL__DOCUMENT" }] }

/-- The keys of the Python dict comprehension in check(), in insertion
order: duplicated ids collapse onto their first occurrence. -/
def pyDedupKeys : List Nat → List Nat
  | [] => []
  | x :: xs => x :: pyDedupKeys (xs.filter (fun y => y ≠ x))
termination_by l => l.length
decreasing_by
  simp only [List.length_cons]
  exact Nat.lt_succ_of_le (xs.length_filter_le _)

/-- What check() produces: the returned error string (None on success),
the corpus id the indexer binds to, and the create-corpus requests it
issued. -/
structure CheckOutcome where
  errMsg : Option String
  corpusId : Option Nat
  createRequests : List CreateCorpusRequest
deriving DecidableEq

/-- indexer.py VectaraIndexer.check, with the remote answers as inputs:
jwtOk is whether _get_jwt_token returned a truthy token, listing is the
list-corpora response, newCorpusId the id a create-corpus call returns.
The dict comprehension keyed by corpus id keeps one entry per distinct
matching id; more than one is the ambiguity error, exactly one is bound,
none triggers corpus creation. -/
def check (corpusName : String) (jwtOk : Bool) (listing : List Corpus)
    (newCorpusId : Nat) : CheckOutcome :=
  if !jwtOk then
    ⟨some "Unable to get JWT Token. Confirm your Client ID and Client Secret.",
      none, []⟩
  else
    let matchIds :=
      pyDedupKeys ((listing.filter (fun c => c.name == corpusName)).map Corpus.id)
    if 1 < matchIds.length then
      ⟨some ("Multiple Corpora exist with name " ++ corpusName), none, []⟩
    else
      match matchIds with
      | [i] => ⟨none, some i, []⟩
      | _ => ⟨none, some newCorpusId, [createCorpusRequest corpusName]⟩

/-! ### Token caching and refresh (indexer.py _request and _get_jwt_token) -/

/-- The cached token state on the indexer instance. -/
structure TokenState where
  jwtToken : String
  jwtTokenExpiresTs : Int
deriving DecidableEq

/-- The token endpoint's answer: access_token and expires_in. -/
structure TokenResponse where
  accessToken : String
  expiresIn : Int
deriving DecidableEq

/-- indexer.py _get_jwt_token: store the fresh token with expiry
request_time + expires_in. -/
def getJwtToken (requestTime : Int) (resp : TokenResponse) : TokenState :=
  { jwtToken := resp.accessToken
    jwtTokenExpiresTs := requestTime + resp.expiresIn }

/-- What one _request call does to the token state: how many token
refreshes it performed, which bearer token its Authorization header
carried, and the state left behind. -/
structure RequestOutcome where
  refreshCalls : Nat
  headerToken : String
  state : TokenState
deriving DecidableEq

/-- indexer.py _request, token-handling part: refresh exactly once when
jwt_token_expires_ts - current_ts <= 60, then send with the (possibly
refreshed) cached token. -/
def indexerRequest (st : TokenState) (currentTs : Int) (resp : TokenResponse) :
    RequestOutcome :=
  if st.jwtTokenExpiresTs - currentTs ≤ 60 then
    let st1 := getJwtToken currentTs resp
    ⟨1, st1.jwtToken, st1⟩
  else
    ⟨0, st.jwtToken, st⟩

/-! ### pre_sync and delete request traces (indexer.py) -/

/-- A remote call the indexer issues through _delete_doc_by_metadata. -/
structure DeleteDocByMetadataCall where
  fieldName : String
  fieldValues : List String
deriving DecidableEq

/-- The destination sync mode of a configured stream. -/
inductive DestinationSyncMode where
  | append
  | overwrite
  | appendDedup
deriving DecidableEq

/-- One configured stream of the catalog. -/
structure ConfiguredStream where
  name : String
  destinationSyncMode : DestinationSyncMode
deriving DecidableEq

/-- The TypeError raised when pre_sync or delete calls
self._delete_doc_by_metadata(field_name=..., field_values=...): the method's
parameters are named metadata_field and metadata_field_value, so the
keyword call raises before the method body runs and no request is issued. -/
def deleteDocKeywordError : String :=
  "TypeError: _delete_doc_by_metadata() got an unexpected keyword argument field_name"

/-- indexer.py pre_sync: collect the names of overwrite-mode streams and,
only when that list is non-empty, call _delete_doc_by_metadata.  The call
passes keywords field_name and field_values to a method whose parameters
are metadata_field and metadata_field_value, so on a non-empty list it
raises TypeError before any request is issued; on an empty list pre_sync
returns without any call.  The result is the raised error, if any, paired
with the remote calls issued (always none). -/
def preSync (catalog : List ConfiguredStream) :
    Option String × List DeleteDocByMetadataCall :=
  let streamsToOverwrite :=
    (catalog.filter (fun s => s.destinationSyncMode = .overwrite)).map
      ConfiguredStream.name
  if streamsToOverwrite.length ≠ 0 then
    (some deleteDocKeywordError, [])
  else
    (none, [])

/-- indexer.py delete: only when the id list is non-empty, call
_delete_doc_by_metadata — with the same mismatched keywords as pre_sync, so
the non-empty branch raises TypeError before any request is issued, and the
empty branch returns without any call. -/
def indexerDelete (deleteIds : List String) :
    Option String × List DeleteDocByMetadataCall :=
  if deleteIds.length > 0 then
    (some deleteDocKeywordError, [])
  else
    (none, [])

/-! ### Metadata values and JSON encoding (indexer.py _normalize)

_normalize passes str/int/float/bool values through and stores
json.dumps(value) for anything else.  Python values that json.dumps
accepts are modelled by PyVal; a finite float is carried by its repr
string, which is also the text json.dumps writes for it.  The encoder
below models json.dumps with its default separators (", " and ": ") and
escape table; escaping of code points at or above 0x7f (ensure_ascii) is
not modelled, such characters are written raw, which the decoder equally
accepts. -/
inductive PyVal where
  | pyStr (s : String)
  | pyInt (n : Int)
  | pyFloat (r : String)
  | pyBool (b : Bool)
  | pyNone
  | pyList (xs : List PyVal)
  | pyTuple (xs : List PyVal)
  | pyDict (kvs : List (String × PyVal))

/-- The isinstance(value, (str, int, float, bool)) test in _normalize. -/
def isPrimitive : PyVal → Bool
  | .pyStr _ => true
  | .pyInt _ => true
  | .pyFloat _ => true
  | .pyBool _ => true
  | _ => false

/-- Lowercase hexadecimal digit, as json.dumps writes in escapes. -/
def hexDigitChar (n : Nat) : Char :=
  if n < 10 then Char.ofNat (48 + n) else Char.ofNat (87 + n)

/-- Decimal digits of a natural number, most significant first. -/
def natToDigits (n : Nat) : List Char :=
  if h : n < 10 then [Char.ofNat (48 + n)]
  else natToDigits (n / 10) ++ [Char.ofNat (48 + n % 10)]
decreasing_by exact Nat.div_lt_self (by omega) (by omega)

/-- The decimal text of a Python int. -/
def intToChars : Int → List Char
  | .ofNat n => natToDigits n
  | .negSucc n => '-' :: natToDigits (n + 1)

/-- The json.dumps escape of one string character: quote and backslash,
the b/t/n/f/r shorthands, and a u-escape for the remaining control
characters. -/
def escapeChar (c : Char) : List Char :=
  if c = '"' then ['\\', '"']
  else if c = '\\' then ['\\', '\\']
  else if c = '\n' then ['\\', 'n']
  else if c = '\t' then ['\\', 't']
  else if c = '\x0d' then ['\\', 'r']
  else if c = '\x08' then ['\\', 'b']
  else if c = '\x0c' then ['\\', 'f']
  else if c.toNat < 32 then
    ['\\', 'u', '0', '0', hexDigitChar (c.toNat / 16), hexDigitChar (c.toNat % 16)]
  else [c]

/-- json.dumps escaping over a whole string body. -/
def escapeList : List Char → List Char
  | [] => []
  | c :: cs => escapeChar c ++ escapeList cs

mutual
/-- json.dumps on one value (default separators). -/
def encodeVal : PyVal → List Char
  | .pyStr s => '"' :: (escapeList s.data ++ ['"'])
  | .pyInt n => intToChars n
  | .pyFloat r => r.data
  | .pyBool true => ['t', 'r', 'u', 'e']
  | .pyBool false => ['f', 'a', 'l', 's', 'e']
  | .pyNone => ['n', 'u', 'l', 'l']
  | .pyList xs => '[' :: (encodeItems xs ++ [']'])
  | .pyTuple xs => '[' :: (encodeItems xs ++ [']'])
  | .pyDict kvs => '\x7b' :: (encodeMembers kvs ++ ['\x7d'])

/-- The items of an array, joined by the default item separator. -/
def encodeItems : List PyVal → List Char
  | [] => []
  | x :: xs => encodeVal x ++ encodeTail xs

/-- The remaining items of an array after the first. -/
def encodeTail : List PyVal → List Char
  | [] => []
  | x :: xs => ',' :: ' ' :: (encodeVal x ++ encodeTail xs)

/-- One object member: quoted key, colon separator, value. -/
def encodeMemberKV : String × PyVal → List Char
  | (k, v) => '"' :: (escapeList k.data ++ '"' :: ':' :: ' ' :: encodeVal v)

/-- The members of an object, joined by the default item separator. -/
def encodeMembers : List (String × PyVal) → List Char
  | [] => []
  | kv :: kvs => encodeMemberKV kv ++ encodeMembersTail kvs

/-- The remaining members of an object after the first. -/
def encodeMembersTail : List (String × PyVal) → List Char
  | [] => []
  | kv :: kvs => ',' :: ' ' :: (encodeMemberKV kv ++ encodeMembersTail kvs)
end

/-- The text json.dumps produces for a value. -/
def pyDumps (v : PyVal) : String := String.mk (encodeVal v)

/-- indexer.py _normalize on one metadata value: primitives pass through,
everything else becomes its JSON text. -/
def normalizeValue (v : PyVal) : PyVal :=
  if isPrimitive v then v else .pyStr (pyDumps v)

/-- indexer.py _normalize over the metadata dict (insertion order kept). -/
def normalizeMetadata (metadata : List (String × PyVal)) : List (String × PyVal) :=
  metadata.map fun kv => (kv.1, normalizeValue kv.2)

/-- The characters a JSON number token may contain. -/
def isNumberChar (c : Char) : Bool :=
  c.isDigit || c = '-' || c = '+' || c = '.' || c = 'e' || c = 'E'

/-- A well-formed float repr: non-empty, made of number characters,
marked as a float by a dot or exponent, and starting like a number.
Finite Python floats have reprs of this shape. -/
def floatOkData (l : List Char) : Bool :=
  !l.isEmpty && l.all isNumberChar &&
    l.any (fun c => c = '.' || c = 'e' || c = 'E') &&
    (match l with
     | c :: _ => c.isDigit || c = '-'
     | [] => false)

mutual
/-- Values inside the modelled fragment: every float leaf carries a
well-formed repr. -/
def wfVal : PyVal → Bool
  | .pyFloat r => floatOkData r.data
  | .pyList xs => wfList xs
  | .pyTuple xs => wfList xs
  | .pyDict kvs => wfMembers kvs
  | _ => true

def wfList : List PyVal → Bool
  | [] => true
  | x :: xs => wfVal x && wfList xs

def wfMembers : List (String × PyVal) → Bool
  | [] => true
  | kv :: kvs => wfVal kv.2 && wfMembers kvs
end

mutual
/-- No tuple anywhere in the value. -/
def noTuples : PyVal → Bool
  | .pyTuple _ => false
  | .pyList xs => noTuplesList xs
  | .pyDict kvs => noTuplesMembers kvs
  | _ => true

def noTuplesList : List PyVal → Bool
  | [] => true
  | x :: xs => noTuples x && noTuplesList xs

def noTuplesMembers : List (String × PyVal) → Bool
  | [] => true
  | kv :: kvs => noTuples kv.2 && noTuplesMembers kvs
end

/-! ### Modelled from the spec: json.loads (the decoder used by the
round-trip property; the json module is the standard library, not part of
this repository).  The decoder reads exactly the canonical texts json.dumps
emits: it skips the space after item and key separators, unescapes string
bodies, scans number tokens, and classifies a number as a float exactly
when its token carries a dot or an exponent, as the CPython scanner does.
Array and object values are read back as lists and string-keyed dicts:
JSON has no tuple form. -/

/-- The value of one hexadecimal digit. -/
def hexDigitVal (c : Char) : Option Nat :=
  if 48 ≤ c.toNat ∧ c.toNat ≤ 57 then some (c.toNat - 48)
  else if 97 ≤ c.toNat ∧ c.toNat ≤ 102 then some (c.toNat - 87)
  else if 65 ≤ c.toNat ∧ c.toNat ≤ 70 then some (c.toNat - 55)
  else none

/-- The value of a four-digit hexadecimal escape. -/
def hexVal4 (h1 h2 h3 h4 : Char) : Option Nat :=
  match hexDigitVal h1, hexDigitVal h2, hexDigitVal h3, hexDigitVal h4 with
  | some d1, some d2, some d3, some d4 =>
    some (d1 * 4096 + d2 * 256 + d3 * 16 + d4)
  | _, _, _, _ => none

/-- The character a one-letter escape stands for. -/
def escDecode (e : Char) : Option Char :=
  if e = '"' then some '"'
  else if e = '\\' then some '\\'
  else if e = '/' then some '/'
  else if e = 'n' then some '\n'
  else if e = 't' then some '\t'
  else if e = 'r' then some '\x0d'
  else if e = 'b' then some '\x08'
  else if e = 'f' then some '\x0c'
  else none

/-- Read a string body up to its closing quote, unescaping as json.loads
does (surrogate-pair escapes are outside the modelled fragment). -/
def decodeStrBody : List Char → Option (List Char × List Char)
  | [] => none
  | c :: rest =>
    if c = '"' then some ([], rest)
    else if c = '\\' then
      match rest with
      | [] => none
      | e :: rest2 =>
        if e = 'u' then
          match rest2 with
          | h1 :: h2 :: h3 :: h4 :: rest3 =>
            match hexVal4 h1 h2 h3 h4 with
            | some n =>
              if n < 55296 then
                match decodeStrBody rest3 with
                | some (s, r) => some (Char.ofNat n :: s, r)
                | none => none
              else none
            | none => none
          | _ => none
        else
          match escDecode e with
          | some ec =>
            match decodeStrBody rest2 with
            | some (s, r) => some (ec :: s, r)
            | none => none
          | none => none
    else
      match decodeStrBody rest with
      | some (s, r) => some (c :: s, r)
      | none => none

/-- Numeric value of a digit list (which parseNatDigits has validated). -/
def digitsToNat (l : List Char) : Nat :=
  l.foldl (fun acc c => acc * 10 + (c.toNat - 48)) 0

/-- Validate and read an unsigned decimal literal: non-empty digits with
no leading zero (except the literal zero itself). -/
def parseNatDigits (ds : List Char) : Option Nat :=
  if ds ≠ [] ∧ ds.all Char.isDigit ∧ (ds = ['0'] ∨ ds.head? ≠ some '0') then
    some (digitsToNat ds)
  else none

/-- Read an optionally negated integer literal. -/
def parseIntToken : List Char → Option Int
  | [] => none
  | c :: ds =>
    if c = '-' then (parseNatDigits ds).map fun n => -(n : Int)
    else (parseNatDigits (c :: ds)).map fun n => (n : Int)

/-- Scan one number token: a float exactly when the token has a dot or an
exponent, an integer otherwise. -/
def decodeNumber (input : List Char) : Option (PyVal × List Char) :=
  let tok := input.takeWhile isNumberChar
  let rest := input.dropWhile isNumberChar
  if tok.any (fun c => c = '.' || c = 'e' || c = 'E') then
    some (.pyFloat (String.mk tok), rest)
  else
    match parseIntToken tok with
    | some n => some (.pyInt n, rest)
    | none => none

/-- Drop the spaces json.dumps writes after separators. -/
def skipSpaces (l : List Char) : List Char := l.dropWhile (fun c => c = ' ')

/-- A continuation that cannot extend a number token: empty, or starting
with a non-number character.  Every separator and closer qualifies. -/
def boundaryOk : List Char → Bool
  | [] => true
  | c :: _ => !isNumberChar c

/-- Match a literal continuation such as the "rue" of true. -/
def dropLit : List Char → List Char → Option (List Char)
  | [], input => some input
  | p :: ps, c :: rest => if c = p then dropLit ps rest else none
  | _ :: _, [] => none

mutual
/-- Read one JSON value off the front of the input.  The fuel bounds the
nesting the reader will follow; every recursive step spends one unit. -/
def decodeVal : Nat → List Char → Option (PyVal × List Char)
  | 0, _ => none
  | fuel + 1, input =>
    match input with
    | [] => none
    | c :: rest =>
      if c = '"' then
        match decodeStrBody rest with
        | some (s, r) => some (.pyStr (String.mk s), r)
        | none => none
      else if c = '[' then
        match decodeElems fuel rest with
        | some (xs, r) => some (.pyList xs, r)
        | none => none
      else if c = '\x7b' then
        match decodeMembers fuel rest with
        | some (kvs, r) => some (.pyDict kvs, r)
        | none => none
      else if c = 't' then
        match dropLit ['r', 'u', 'e'] rest with
        | some r => some (.pyBool true, r)
        | none => none
      else if c = 'f' then
        match dropLit ['a', 'l', 's', 'e'] rest with
        | some r => some (.pyBool false, r)
        | none => none
      else if c = 'n' then
        match dropLit ['u', 'l', 'l'] rest with
        | some r => some (.pyNone, r)
        | none => none
      else if c.isDigit || c = '-' then decodeNumber (c :: rest)
      else none

/-- Read the items of an array after its opening bracket. -/
def decodeElems : Nat → List Char → Option (List PyVal × List Char)
  | 0, _ => none
  | fuel + 1, input =>
    match input with
    | [] => none
    | c :: rest =>
      if c = ']' then some ([], rest)
      else
        match decodeVal fuel (c :: rest) with
        | some (v, r) =>
          match decodeElemsTail fuel r with
          | some (vs, r2) => some (v :: vs, r2)
          | none => none
        | none => none

/-- Read the rest of an array after a completed item. -/
def decodeElemsTail : Nat → List Char → Option (List PyVal × List Char)
  | 0, _ => none
  | fuel + 1, input =>
    match input with
    | [] => none
    | c :: rest =>
      if c = ']' then some ([], rest)
      else if c = ',' then
        match decodeVal fuel (skipSpaces rest) with
        | some (v, r) =>
          match decodeElemsTail fuel r with
          | some (vs, r2) => some (v :: vs, r2)
          | none => none
        | none => none
      else none

/-- Read one object member: quoted key, colon, value. -/
def decodeMember : Nat → List Char → Option ((String × PyVal) × List Char)
  | 0, _ => none
  | fuel + 1, input =>
    match input with
    | [] => none
    | c :: rest =>
      if c = '"' then
        match decodeStrBody rest with
        | some (k, r) =>
          match r with
          | ':' :: r2 =>
            match decodeVal fuel (skipSpaces r2) with
            | some (v, r3) => some ((String.mk k, v), r3)
            | none => none
          | _ => none
        | none => none
      else none

/-- Read the members of an object after its opening brace. -/
def decodeMembers : Nat → List Char → Option (List (String × PyVal) × List Char)
  | 0, _ => none
  | fuel + 1, input =>
    match input with
    | [] => none
    | c :: rest =>
      if c = '\x7d' then some ([], rest)
      else
        match decodeMember fuel (c :: rest) with
        | some (kv, r) =>
          match decodeMembersTail fuel r with
          | some (kvs, r2) => some (kv :: kvs, r2)
          | none => none
        | none => none

/-- Read the rest of an object after a completed member. -/
def decodeMembersTail : Nat → List Char → Option (List (String × PyVal) × List Char)
  | 0, _ => none
  | fuel + 1, input =>
    match input with
    | [] => none
    | c :: rest =>
      if c = '\x7d' then some ([], rest)
      else if c = ',' then
        match decodeMember fuel (skipSpaces rest) with
        | some (kv, r) =>
          match decodeMembersTail fuel r with
          | some (kvs, r2) => some (kv :: kvs, r2)
          | none => none
        | none => none
      else none
end

/-- json.loads: read one value and insist the input is fully consumed.
The fuel is ample for any value whose text fits in the input. -/
def pyLoads (s : String) : Option PyVal :=
  match decodeVal (2 * s.data.length + 2) s.data with
  | some (v, []) => some v
  | _ => none

/-! ### Decimal literals round-trip -/

theorem natToDigits_small {n : Nat} (h : n < 10) :
    natToDigits n = [Char.ofNat (48 + n)] := by
  rw [natToDigits]
  simp [h]

theorem natToDigits_large {n : Nat} (h : ¬ n < 10) :
    natToDigits n = natToDigits (n / 10) ++ [Char.ofNat (48 + n % 10)] := by
  conv_lhs => rw [natToDigits]
  simp [h]

theorem natToDigits_ne_nil (n : Nat) : natToDigits n ≠ [] := by
  by_cases h : n < 10
  · rw [natToDigits_small h]
    simp
  · rw [natToDigits_large h]
    simp

theorem digit_char_isDigit {n : Nat} (h : n < 10) :
    (Char.ofNat (48 + n)).isDigit = true := by
  have ht : (Char.ofNat (48 + n)).toNat = 48 + n := charToNat_ofNat (by omega)
  simp only [Char.isDigit, ge_iff_le, Bool.and_eq_true, decide_eq_true_eq]
  have e1 : (48 : UInt32).toNat = 48 := by decide
  have e2 : (57 : UInt32).toNat = 57 := by decide
  have ht2 : (Char.ofNat (48 + n)).val.toNat = 48 + n := ht
  constructor
  · show (48 : UInt32).toNat ≤ (Char.ofNat (48 + n)).val.toNat
    omega
  · show (Char.ofNat (48 + n)).val.toNat ≤ (57 : UInt32).toNat
    omega

theorem natToDigits_all_digits (n : Nat) :
    (natToDigits n).all Char.isDigit = true := by
  induction n using Nat.strong_induction_on with
  | _ n ih =>
    by_cases h : n < 10
    · rw [natToDigits_small h]
      simp [digit_char_isDigit h]
    · rw [natToDigits_large h]
      rw [List.all_append]
      rw [Bool.and_eq_true]
      refine ⟨ih (n / 10) (Nat.div_lt_self (by omega) (by omega)), ?_⟩
      simp [digit_char_isDigit (Nat.mod_lt n (by omega))]

theorem isDigit_toNat {c : Char} (h : c.isDigit = true) :
    48 ≤ c.toNat ∧ c.toNat ≤ 57 := by
  simp only [Char.isDigit, ge_iff_le, Bool.and_eq_true, decide_eq_true_eq] at h
  obtain ⟨h1, h2⟩ := h
  have g1 : (48 : UInt32).toNat ≤ c.val.toNat := h1
  have g2 : c.val.toNat ≤ (57 : UInt32).toNat := h2
  have e1 : (48 : UInt32).toNat = 48 := by decide
  have e2 : (57 : UInt32).toNat = 57 := by decide
  have e3 : c.toNat = c.val.toNat := rfl
  exact ⟨by omega, by omega⟩

theorem natToDigits_head_ne_zero {n : Nat} (h : n ≠ 0) :
    (natToDigits n).head? ≠ some '0' := by
  induction n using Nat.strong_induction_on with
  | _ n ih =>
    by_cases h10 : n < 10
    · rw [natToDigits_small h10]
      have ht : (Char.ofNat (48 + n)).toNat = 48 + n := charToNat_ofNat (by omega)
      simp only [List.head?_cons, ne_eq, Option.some.injEq]
      intro he
      rw [he] at ht
      have : ('0' : Char).toNat = 48 := by decide
      omega
    · rw [natToDigits_large h10]
      rw [List.head?_append_of_ne_nil _ (natToDigits_ne_nil _)]
      exact ih (n / 10) (Nat.div_lt_self (by omega) (by omega)) (by omega)

theorem digitsToNat_append_one (l : List Char) (d : Char) :
    digitsToNat (l ++ [d]) = 10 * digitsToNat l + (d.toNat - 48) := by
  unfold digitsToNat
  rw [List.foldl_append]
  simp [Nat.mul_comm]

theorem digitsToNat_natToDigits (n : Nat) : digitsToNat (natToDigits n) = n := by
  induction n using Nat.strong_induction_on with
  | _ n ih =>
    by_cases h : n < 10
    · rw [natToDigits_small h]
      show digitsToNat ([] ++ [Char.ofNat (48 + n)]) = n
      rw [digitsToNat_append_one]
      have ht : (Char.ofNat (48 + n)).toNat = 48 + n := charToNat_ofNat (by omega)
      rw [ht]
      simp [digitsToNat]
    · rw [natToDigits_large h]
      rw [digitsToNat_append_one]
      rw [ih (n / 10) (Nat.div_lt_self (by omega) (by omega))]
      have ht : (Char.ofNat (48 + n % 10)).toNat = 48 + n % 10 :=
        charToNat_ofNat (by omega)
      rw [ht]
      omega

theorem parseNatDigits_natToDigits (n : Nat) :
    parseNatDigits (natToDigits n) = some n := by
  unfold parseNatDigits
  rw [if_pos]
  · rw [digitsToNat_natToDigits]
  · refine ⟨natToDigits_ne_nil n, natToDigits_all_digits n, ?_⟩
    by_cases h0 : n = 0
    · left
      rw [h0, natToDigits_small (by omega)]
    · right
      exact natToDigits_head_ne_zero h0

/-! ### Number-token scanning round-trip -/

theorem takeWhile_all_append {p : Char → Bool} :
    ∀ l r : List Char, l.all p = true → (∀ c t, r = c :: t → p c = false) →
      (l ++ r).takeWhile p = l ∧ (l ++ r).dropWhile p = r
  | [], r, _, hr => by
    match r with
    | [] => exact ⟨rfl, rfl⟩
    | c :: t =>
      have := hr c t rfl
      simp [List.takeWhile, List.dropWhile, this]
  | a :: l, r, hl, hr => by
    rw [List.all_cons, Bool.and_eq_true] at hl
    obtain ⟨h1, h2⟩ := takeWhile_all_append l r hl.2 hr
    simp [List.takeWhile_cons, List.dropWhile_cons, hl.1, h1, h2]

theorem boundaryOk_spec {rest : List Char} (hb : boundaryOk rest = true) :
    ∀ c t, rest = c :: t → isNumberChar c = false := by
  intro c t he
  rw [he] at hb
  unfold boundaryOk at hb
  simp only [Bool.not_eq_true'] at hb
  exact hb

theorem isNumberChar_of_isDigit {c : Char} (h : c.isDigit = true) :
    isNumberChar c = true := by
  unfold isNumberChar
  rw [h]
  rfl

theorem not_float_mark_of_isDigit {c : Char} (h : c.isDigit = true) :
    (c = '.' || c = 'e' || c = 'E') = false := by
  have h1 : c ≠ '.' := fun he => by rw [he] at h; exact absurd h (by decide)
  have h2 : c ≠ 'e' := fun he => by rw [he] at h; exact absurd h (by decide)
  have h3 : c ≠ 'E' := fun he => by rw [he] at h; exact absurd h (by decide)
  simp [h1, h2, h3]

theorem digits_any_float_mark {l : List Char} (h : l.all Char.isDigit = true) :
    (l.any fun c => c = '.' || c = 'e' || c = 'E') = false := by
  rw [List.all_eq_true] at h
  rw [List.any_eq_false]
  intro c hc
  have := not_float_mark_of_isDigit (h c hc)
  simp only [this]
  exact Bool.false_ne_true

theorem intToChars_all_num (m : Int) :
    (intToChars m).all isNumberChar = true := by
  have hd : ∀ n : Nat, (natToDigits n).all isNumberChar = true := by
    intro n
    have := natToDigits_all_digits n
    rw [List.all_eq_true] at this ⊢
    exact fun c hc => isNumberChar_of_isDigit (this c hc)
  match m with
  | .ofNat n => exact hd n
  | .negSucc n =>
    show (('-' :: natToDigits (n + 1)).all isNumberChar) = true
    rw [List.all_cons, Bool.and_eq_true]
    exact ⟨by decide, hd (n + 1)⟩

theorem intToChars_any_float_mark (m : Int) :
    ((intToChars m).any fun c => c = '.' || c = 'e' || c = 'E') = false := by
  match m with
  | .ofNat n => exact digits_any_float_mark (natToDigits_all_digits n)
  | .negSucc n =>
    show (('-' :: natToDigits (n + 1)).any fun c => c = '.' || c = 'e' || c = 'E') = false
    rw [List.any_cons]
    rw [digits_any_float_mark (natToDigits_all_digits (n + 1))]
    decide

theorem parseIntToken_intToChars (m : Int) :
    parseIntToken (intToChars m) = some m := by
  match m with
  | .ofNat n =>
    show parseIntToken (natToDigits n) = some (Int.ofNat n)
    obtain ⟨d, ds, hds⟩ : ∃ d ds, natToDigits n = d :: ds := by
      match hnd : natToDigits n with
      | [] => exact absurd hnd (natToDigits_ne_nil n)
      | d :: ds => exact ⟨d, ds, rfl⟩
    rw [hds]
    have hdig : d.isDigit = true := by
      have := natToDigits_all_digits n
      rw [hds, List.all_cons, Bool.and_eq_true] at this
      exact this.1
    have hne : d ≠ '-' := fun he => by
      rw [he] at hdig
      exact absurd hdig (by decide)
    simp only [parseIntToken]
    rw [if_neg hne, ← hds, parseNatDigits_natToDigits]
    rfl
  | .negSucc n =>
    show parseIntToken ('-' :: natToDigits (n + 1)) = some (Int.negSucc n)
    simp only [parseIntToken, if_true]
    rw [parseNatDigits_natToDigits]
    simp [Int.negSucc_eq]

theorem decodeNumber_int (m : Int) (rest : List Char)
    (hb : boundaryOk rest = true) :
    decodeNumber (intToChars m ++ rest) = some (.pyInt m, rest) := by
  obtain ⟨htake, hdrop⟩ :=
    takeWhile_all_append (intToChars m) rest (intToChars_all_num m)
      (boundaryOk_spec hb)
  unfold decodeNumber
  simp only [htake, hdrop]
  rw [intToChars_any_float_mark m]
  simp only [Bool.false_eq_true, if_false]
  rw [parseIntToken_intToChars m]

theorem floatOkData_parts {l : List Char} (h : floatOkData l = true) :
    l ≠ [] ∧ l.all isNumberChar = true ∧
      (l.any fun c => c = '.' || c = 'e' || c = 'E') = true := by
  unfold floatOkData at h
  simp only [Bool.and_eq_true] at h
  refine ⟨?_, h.1.1.2, h.1.2⟩
  intro he
  rw [he] at h
  exact absurd h.1.1.1 (by decide)

theorem decodeNumber_float (r : String) (rest : List Char)
    (hf : floatOkData r.data = true) (hb : boundaryOk rest = true) :
    decodeNumber (r.data ++ rest) = some (.pyFloat r, rest) := by
  obtain ⟨hne, hall, hany⟩ := floatOkData_parts hf
  obtain ⟨htake, hdrop⟩ :=
    takeWhile_all_append r.data rest hall (boundaryOk_spec hb)
  unfold decodeNumber
  simp only [htake, hdrop, hany, if_true]

/-! ### String escaping round-trip -/

theorem hexDigitVal_hexDigitChar {d : Nat} (h : d < 16) :
    hexDigitVal (hexDigitChar d) = some d := by
  unfold hexDigitChar
  by_cases h10 : d < 10
  · rw [if_pos h10]
    have ht : (Char.ofNat (48 + d)).toNat = 48 + d := charToNat_ofNat (by omega)
    unfold hexDigitVal
    rw [ht, if_pos ⟨by omega, by omega⟩]
    congr 1
    omega
  · rw [if_neg h10]
    have ht : (Char.ofNat (87 + d)).toNat = 87 + d := charToNat_ofNat (by omega)
    unfold hexDigitVal
    rw [ht, if_neg (by omega), if_pos ⟨by omega, by omega⟩]
    congr 1
    omega

theorem hexVal4_00 {c : Char} (h : c.toNat < 32) :
    hexVal4 '0' '0' (hexDigitChar (c.toNat / 16)) (hexDigitChar (c.toNat % 16)) =
      some c.toNat := by
  unfold hexVal4
  have e0 : hexDigitVal '0' = some 0 := by decide
  rw [e0, hexDigitVal_hexDigitChar (by omega), hexDigitVal_hexDigitChar (by omega)]
  show some (0 * 4096 + 0 * 256 + c.toNat / 16 * 16 + c.toNat % 16) = some c.toNat
  congr 1
  omega

theorem dsb_quote (rest : List Char) :
    decodeStrBody ('"' :: rest) = some ([], rest) := by
  unfold decodeStrBody
  rw [if_pos rfl]

theorem dsb_esc (e ec : Char) (rest : List Char)
    (he : escDecode e = some ec) (hu : e ≠ 'u') :
    decodeStrBody ('\\' :: e :: rest) =
      match decodeStrBody rest with
      | some (s, r) => some (ec :: s, r)
      | none => none := by
  conv_lhs => unfold decodeStrBody
  rw [if_neg (by decide : ('\\' : Char) ≠ '"'), if_pos (rfl : ('\\' : Char) = '\\')]
  simp only []
  rw [if_neg hu, he]

theorem dsb_u {h1 h2 h3 h4 : Char} {n : Nat} (rest : List Char)
    (hv : hexVal4 h1 h2 h3 h4 = some n) (hn : n < 55296) :
    decodeStrBody ('\\' :: 'u' :: h1 :: h2 :: h3 :: h4 :: rest) =
      match decodeStrBody rest with
      | some (s, r) => some (Char.ofNat n :: s, r)
      | none => none := by
  conv_lhs => unfold decodeStrBody
  rw [if_neg (by decide : ('\\' : Char) ≠ '"'), if_pos (rfl : ('\\' : Char) = '\\')]
  simp only [if_true]
  rw [hv]
  simp only []
  rw [if_pos hn]

theorem dsb_plain {c : Char} (rest : List Char) (h1 : c ≠ '"') (h2 : c ≠ '\\') :
    decodeStrBody (c :: rest) =
      match decodeStrBody rest with
      | some (s, r) => some (c :: s, r)
      | none => none := by
  conv_lhs => unfold decodeStrBody
  rw [if_neg h1, if_neg h2]

theorem decodeStrBody_escape : ∀ (l rest : List Char),
    decodeStrBody (escapeList l ++ '"' :: rest) = some (l, rest)
  | [], rest => by
    show decodeStrBody ('"' :: rest) = some ([], rest)
    exact dsb_quote rest
  | c :: cs, rest => by
    have ih := decodeStrBody_escape cs rest
    show decodeStrBody ((escapeChar c ++ escapeList cs) ++ '"' :: rest) =
      some (c :: cs, rest)
    rw [List.append_assoc]
    unfold escapeChar
    by_cases hq : c = '"'
    · rw [if_pos hq]
      subst hq
      show decodeStrBody ('\\' :: '"' :: (escapeList cs ++ '"' :: rest)) = _
      rw [dsb_esc '"' '"' _ (by decide) (by decide), ih]
    · rw [if_neg hq]
      by_cases hb : c = '\\'
      · rw [if_pos hb]
        subst hb
        show decodeStrBody ('\\' :: '\\' :: (escapeList cs ++ '"' :: rest)) = _
        rw [dsb_esc '\\' '\\' _ (by decide) (by decide), ih]
      · rw [if_neg hb]
        by_cases hn : c = '\n'
        · rw [if_pos hn]
          subst hn
          show decodeStrBody ('\\' :: 'n' :: (escapeList cs ++ '"' :: rest)) = _
          rw [dsb_esc 'n' '\n' _ (by decide) (by decide), ih]
        · rw [if_neg hn]
          by_cases ht : c = '\t'
          · rw [if_pos ht]
            subst ht
            show decodeStrBody ('\\' :: 't' :: (escapeList cs ++ '"' :: rest)) = _
            rw [dsb_esc 't' '\t' _ (by decide) (by decide), ih]
          · rw [if_neg ht]
            by_cases hr : c = '\x0d'
            · rw [if_pos hr]
              subst hr
              show decodeStrBody ('\\' :: 'r' :: (escapeList cs ++ '"' :: rest)) = _
              rw [dsb_esc 'r' '\x0d' _ (by decide) (by decide), ih]
            · rw [if_neg hr]
              by_cases hbs : c = '\x08'
              · rw [if_pos hbs]
                subst hbs
                show decodeStrBody ('\\' :: 'b' :: (escapeList cs ++ '"' :: rest)) = _
                rw [dsb_esc 'b' '\x08' _ (by decide) (by decide), ih]
              · rw [if_neg hbs]
                by_cases hf : c = '\x0c'
                · rw [if_pos hf]
                  subst hf
                  show decodeStrBody ('\\' :: 'f' :: (escapeList cs ++ '"' :: rest)) = _
                  rw [dsb_esc 'f' '\x0c' _ (by decide) (by decide), ih]
                · rw [if_neg hf]
                  by_cases hc : c.toNat < 32
                  · rw [if_pos hc]
                    show decodeStrBody ('\\' :: 'u' :: '0' :: '0' ::
                      hexDigitChar (c.toNat / 16) :: hexDigitChar (c.toNat % 16) ::
                      (escapeList cs ++ '"' :: rest)) = _
                    rw [dsb_u _ (hexVal4_00 hc) (by omega), ih, Char.ofNat_toNat]
                  · rw [if_neg hc]
                    show decodeStrBody (c :: (escapeList cs ++ '"' :: rest)) = _
                    rw [dsb_plain _ hq hb, ih]

/-! ### Heads of encoded values, and space skipping -/

theorem floatOkData_head {l : List Char} (h : floatOkData l = true) :
    ∃ c t, l = c :: t ∧ (c.isDigit || decide (c = '-')) = true := by
  match l with
  | [] => exact absurd h (by decide)
  | c :: t =>
    refine ⟨c, t, rfl, ?_⟩
    unfold floatOkData at h
    simp only [Bool.and_eq_true] at h
    exact h.2

theorem isDigit_ne {c d : Char} (h : c.isDigit = true) (hd : d.isDigit = false) :
    c ≠ d := by
  intro he
  rw [he] at h
  rw [h] at hd
  exact Bool.noConfusion hd

theorem encodeVal_head (v : PyVal) (hw : wfVal v = true) :
    ∃ c t, encodeVal v = c :: t ∧ c ≠ ' ' ∧ c ≠ ']' := by
  match v with
  | .pyStr s =>
    exact ⟨'"', escapeList s.data ++ ['"'], by simp [encodeVal], by decide, by decide⟩
  | .pyInt m =>
    match m with
    | .ofNat n =>
      obtain ⟨d, ds, hds⟩ : ∃ d ds, natToDigits n = d :: ds := by
        match hnd : natToDigits n with
        | [] => exact absurd hnd (natToDigits_ne_nil n)
        | d :: ds => exact ⟨d, ds, rfl⟩
      have hdig : d.isDigit = true := by
        have := natToDigits_all_digits n
        rw [hds, List.all_cons, Bool.and_eq_true] at this
        exact this.1
      refine ⟨d, ds, ?_, isDigit_ne hdig (by decide), isDigit_ne hdig (by decide)⟩
      simp [encodeVal, intToChars, hds]
    | .negSucc n =>
      exact ⟨'-', natToDigits (n + 1), by simp [encodeVal, intToChars],
        by decide, by decide⟩
  | .pyFloat r =>
    obtain ⟨c, t, hct, hd⟩ := floatOkData_head (by simpa [wfVal] using hw)
    rw [Bool.or_eq_true, decide_eq_true_eq] at hd
    rcases hd with hd | hd
    · exact ⟨c, t, by simp [encodeVal, hct], isDigit_ne hd (by decide),
        isDigit_ne hd (by decide)⟩
    · subst hd
      exact ⟨'-', t, by simp [encodeVal, hct], by decide, by decide⟩
  | .pyBool true => exact ⟨'t', ['r', 'u', 'e'], by simp [encodeVal], by decide, by decide⟩
  | .pyBool false =>
    exact ⟨'f', ['a', 'l', 's', 'e'], by simp [encodeVal], by decide, by decide⟩
  | .pyNone => exact ⟨'n', ['u', 'l', 'l'], by simp [encodeVal], by decide, by decide⟩
  | .pyList xs =>
    exact ⟨'[', encodeItems xs ++ [']'], by simp [encodeVal], by decide, by decide⟩
  | .pyTuple xs =>
    exact ⟨'[', encodeItems xs ++ [']'], by simp [encodeVal], by decide, by decide⟩
  | .pyDict kvs =>
    exact ⟨'\x7b', encodeMembers kvs ++ ['\x7d'], by simp [encodeVal], by decide, by decide⟩

theorem skipSpaces_cons_space (l : List Char) : skipSpaces (' ' :: l) = skipSpaces l := by
  simp [skipSpaces, List.dropWhile_cons]

theorem skipSpaces_cons_of_ne {c : Char} (l : List Char) (h : c ≠ ' ') :
    skipSpaces (c :: l) = c :: l := by
  simp [skipSpaces, List.dropWhile_cons, h]

/-! ### One-step unfolding of the fueled decoders -/

theorem decodeVal_quote (fuel : Nat) (rest : List Char) :
    decodeVal (fuel + 1) ('"' :: rest) =
      match decodeStrBody rest with
      | some (s, r) => some (.pyStr (String.mk s), r)
      | none => none := by
  conv_lhs => unfold decodeVal
  simp only []
  simp only [if_true]

theorem decodeVal_bracket (fuel : Nat) (rest : List Char) :
    decodeVal (fuel + 1) ('[' :: rest) =
      match decodeElems fuel rest with
      | some (xs, r) => some (.pyList xs, r)
      | none => none := by
  conv_lhs => unfold decodeVal
  simp only []
  rw [if_neg (by decide)]
  simp only [if_true]

theorem decodeVal_brace (fuel : Nat) (rest : List Char) :
    decodeVal (fuel + 1) ('\x7b' :: rest) =
      match decodeMembers fuel rest with
      | some (kvs, r) => some (.pyDict kvs, r)
      | none => none := by
  conv_lhs => unfold decodeVal
  simp only []
  rw [if_neg (by decide), if_neg (by decide)]
  simp only [if_true]

theorem decodeVal_true (fuel : Nat) (rest : List Char) :
    decodeVal (fuel + 1) ('t' :: 'r' :: 'u' :: 'e' :: rest) =
      some (.pyBool true, rest) := by
  conv_lhs => unfold decodeVal
  simp only []
  rw [if_neg (by decide), if_neg (by decide), if_neg (by decide)]
  simp only [if_true]
  rfl

theorem decodeVal_false (fuel : Nat) (rest : List Char) :
    decodeVal (fuel + 1) ('f' :: 'a' :: 'l' :: 's' :: 'e' :: rest) =
      some (.pyBool false, rest) := by
  conv_lhs => unfold decodeVal
  simp only []
  rw [if_neg (by decide), if_neg (by decide), if_neg (by decide), if_neg (by decide)]
  simp only [if_true]
  rfl

theorem decodeVal_null (fuel : Nat) (rest : List Char) :
    decodeVal (fuel + 1) ('n' :: 'u' :: 'l' :: 'l' :: rest) =
      some (.pyNone, rest) := by
  conv_lhs => unfold decodeVal
  simp only []
  rw [if_neg (by decide), if_neg (by decide), if_neg (by decide), if_neg (by decide),
    if_neg (by decide)]
  simp only [if_true]
  rfl

theorem decodeVal_number {c : Char} (fuel : Nat) (rest : List Char)
    (hd : (c.isDigit || decide (c = '-')) = true)
    (h1 : c ≠ '"') (h2 : c ≠ '[') (h3 : c ≠ '\x7b') (h4 : c ≠ 't')
    (h5 : c ≠ 'f') (h6 : c ≠ 'n') :
    decodeVal (fuel + 1) (c :: rest) = decodeNumber (c :: rest) := by
  conv_lhs => unfold decodeVal
  simp only []
  rw [if_neg h1, if_neg h2, if_neg h3, if_neg h4, if_neg h5, if_neg h6, if_pos hd]

theorem decodeElems_close (fuel : Nat) (rest : List Char) :
    decodeElems (fuel + 1) (']' :: rest) = some ([], rest) := by
  conv_lhs => unfold decodeElems
  simp only []
  simp only [if_true]

theorem decodeElems_cons {c : Char} (fuel : Nat) (rest : List Char) (h : c ≠ ']') :
    decodeElems (fuel + 1) (c :: rest) =
      match decodeVal fuel (c :: rest) with
      | some (v, r) =>
        match decodeElemsTail fuel r with
        | some (vs, r2) => some (v :: vs, r2)
        | none => none
      | none => none := by
  conv_lhs => unfold decodeElems
  simp only []
  rw [if_neg h]

theorem decodeElemsTail_close (fuel : Nat) (rest : List Char) :
    decodeElemsTail (fuel + 1) (']' :: rest) = some ([], rest) := by
  conv_lhs => unfold decodeElemsTail
  simp only []
  simp only [if_true]

theorem decodeElemsTail_comma (fuel : Nat) (rest : List Char) :
    decodeElemsTail (fuel + 1) (',' :: rest) =
      match decodeVal fuel (skipSpaces rest) with
      | some (v, r) =>
        match decodeElemsTail fuel r with
        | some (vs, r2) => some (v :: vs, r2)
        | none => none
      | none => none := by
  conv_lhs => unfold decodeElemsTail
  simp only []
  rw [if_neg (by decide)]
  simp only [if_true]

theorem decodeMember_quote (fuel : Nat) (rest : List Char) :
    decodeMember (fuel + 1) ('"' :: rest) =
      match decodeStrBody rest with
      | some (k, r) =>
        match r with
        | ':' :: r2 =>
          match decodeVal fuel (skipSpaces r2) with
          | some (v, r3) => some ((String.mk k, v), r3)
          | none => none
        | _ => none
      | none => none := by
  conv_lhs => unfold decodeMember
  simp only []
  simp only [if_true]

theorem decodeMembers_close (fuel : Nat) (rest : List Char) :
    decodeMembers (fuel + 1) ('\x7d' :: rest) = some ([], rest) := by
  conv_lhs => unfold decodeMembers
  simp only []
  simp only [if_true]

theorem decodeMembers_cons {c : Char} (fuel : Nat) (rest : List Char) (h : c ≠ '\x7d') :
    decodeMembers (fuel + 1) (c :: rest) =
      match decodeMember fuel (c :: rest) with
      | some (kv, r) =>
        match decodeMembersTail fuel r with
        | some (kvs, r2) => some (kv :: kvs, r2)
        | none => none
      | none => none := by
  conv_lhs => unfold decodeMembers
  simp only []
  rw [if_neg h]

theorem decodeMembersTail_close (fuel : Nat) (rest : List Char) :
    decodeMembersTail (fuel + 1) ('\x7d' :: rest) = some ([], rest) := by
  conv_lhs => unfold decodeMembersTail
  simp only []
  simp only [if_true]

theorem decodeMembersTail_comma (fuel : Nat) (rest : List Char) :
    decodeMembersTail (fuel + 1) (',' :: rest) =
      match decodeMember fuel (skipSpaces rest) with
      | some (kv, r) =>
        match decodeMembersTail fuel r with
        | some (kvs, r2) => some (kv :: kvs, r2)
        | none => none
      | none => none := by
  conv_lhs => unfold decodeMembersTail
  simp only []
  rw [if_neg (by decide)]
  simp only [if_true]

/-! ### Reading a number value -/

theorem intToChars_head (m : Int) :
    ∃ c t, intToChars m = c :: t ∧ (c.isDigit || decide (c = '-')) = true := by
  match m with
  | .ofNat n =>
    obtain ⟨d, ds, hds⟩ : ∃ d ds, natToDigits n = d :: ds := by
      match hnd : natToDigits n with
      | [] => exact absurd hnd (natToDigits_ne_nil n)
      | d :: ds => exact ⟨d, ds, rfl⟩
    have hdig : d.isDigit = true := by
      have := natToDigits_all_digits n
      rw [hds, List.all_cons, Bool.and_eq_true] at this
      exact this.1
    exact ⟨d, ds, hds, by rw [hdig]; rfl⟩
  | .negSucc n => exact ⟨'-', natToDigits (n + 1), rfl, by decide⟩

theorem head_cases_ne {c : Char} (hd : (c.isDigit || decide (c = '-')) = true)
    {d : Char} (h1 : d.isDigit = false) (h2 : d ≠ '-') : c ≠ d := by
  rw [Bool.or_eq_true, decide_eq_true_eq] at hd
  rcases hd with hd | hd
  · exact isDigit_ne hd h1
  · rw [hd]
    exact fun he => h2 he.symm

theorem decodeVal_int (fuel : Nat) (m : Int) (rest : List Char)
    (hb : boundaryOk rest = true) :
    decodeVal (fuel + 1) (intToChars m ++ rest) = some (.pyInt m, rest) := by
  obtain ⟨c, t, hct, hd⟩ := intToChars_head m
  have hnum := decodeNumber_int m rest hb
  rw [hct, List.cons_append] at hnum ⊢
  rw [decodeVal_number fuel _ hd (head_cases_ne hd (by decide) (by decide))
    (head_cases_ne hd (by decide) (by decide)) (head_cases_ne hd (by decide) (by decide))
    (head_cases_ne hd (by decide) (by decide)) (head_cases_ne hd (by decide) (by decide))
    (head_cases_ne hd (by decide) (by decide))]
  exact hnum

theorem decodeVal_float (fuel : Nat) (r : String) (rest : List Char)
    (hf : floatOkData r.data = true) (hb : boundaryOk rest = true) :
    decodeVal (fuel + 1) (r.data ++ rest) = some (.pyFloat r, rest) := by
  obtain ⟨c, t, hct, hd⟩ := floatOkData_head hf
  have hnum := decodeNumber_float r rest hf hb
  rw [hct, List.cons_append] at hnum ⊢
  rw [decodeVal_number fuel _ hd (head_cases_ne hd (by decide) (by decide))
    (head_cases_ne hd (by decide) (by decide)) (head_cases_ne hd (by decide) (by decide))
    (head_cases_ne hd (by decide) (by decide)) (head_cases_ne hd (by decide) (by decide))
    (head_cases_ne hd (by decide) (by decide))]
  exact hnum

/-! ### Boundaries inside encoded arrays and objects -/

theorem boundaryOk_encodeTail (xs : List PyVal) (rest : List Char) :
    boundaryOk (encodeTail xs ++ ']' :: rest) = true := by
  cases xs with
  | nil =>
    simp only [encodeTail, List.nil_append]
    rfl
  | cons x xs =>
    simp only [encodeTail, List.cons_append]
    rfl

theorem boundaryOk_encodeMembersTail (kvs : List (String × PyVal)) (rest : List Char) :
    boundaryOk (encodeMembersTail kvs ++ '\x7d' :: rest) = true := by
  cases kvs with
  | nil =>
    simp only [encodeMembersTail, List.nil_append]
    rfl
  | cons kv kvs =>
    simp only [encodeMembersTail, List.cons_append]
    rfl

/-! ### The round-trip: reading back what json.dumps wrote -/

theorem decode_encode_all : ∀ fuel : Nat,
    (∀ v rest, wfVal v = true → noTuples v = true →
      2 * (encodeVal v).length + 1 ≤ fuel → boundaryOk rest = true →
      decodeVal fuel (encodeVal v ++ rest) = some (v, rest))
    ∧ (∀ xs rest, wfList xs = true → noTuplesList xs = true →
      2 * (encodeItems xs).length + 3 ≤ fuel →
      decodeElems fuel (encodeItems xs ++ ']' :: rest) = some (xs, rest))
    ∧ (∀ xs rest, wfList xs = true → noTuplesList xs = true →
      2 * (encodeTail xs).length + 2 ≤ fuel →
      decodeElemsTail fuel (encodeTail xs ++ ']' :: rest) = some (xs, rest))
    ∧ (∀ k v rest, wfVal v = true → noTuples v = true →
      2 * (encodeMemberKV (k, v)).length + 1 ≤ fuel → boundaryOk rest = true →
      decodeMember fuel (encodeMemberKV (k, v) ++ rest) = some ((k, v), rest))
    ∧ (∀ kvs rest, wfMembers kvs = true → noTuplesMembers kvs = true →
      2 * (encodeMembers kvs).length + 3 ≤ fuel →
      decodeMembers fuel (encodeMembers kvs ++ '\x7d' :: rest) = some (kvs, rest))
    ∧ (∀ kvs rest, wfMembers kvs = true → noTuplesMembers kvs = true →
      2 * (encodeMembersTail kvs).length + 2 ≤ fuel →
      decodeMembersTail fuel (encodeMembersTail kvs ++ '\x7d' :: rest) = some (kvs, rest)) := by
  intro fuel
  induction fuel using Nat.strong_induction_on with
  | _ fuel ih =>
    refine ⟨?_, ?_, ?_, ?_, ?_, ?_⟩
    · intro v rest hw hnt hfuel hb
      obtain ⟨g, rfl⟩ : ∃ g, fuel = g + 1 := ⟨fuel - 1, by omega⟩
      cases v with
      | pyStr s =>
        simp only [encodeVal, List.cons_append, List.append_assoc, List.singleton_append,
          List.nil_append]
        rw [decodeVal_quote, decodeStrBody_escape]
      | pyInt m =>
        simp only [encodeVal]
        exact decodeVal_int g m rest hb
      | pyFloat r =>
        simp only [wfVal] at hw
        simp only [encodeVal]
        exact decodeVal_float g r rest hw hb
      | pyBool b =>
        cases b with
        | true =>
          simp only [encodeVal, List.cons_append, List.nil_append]
          exact decodeVal_true g rest
        | false =>
          simp only [encodeVal, List.cons_append, List.nil_append]
          exact decodeVal_false g rest
      | pyNone =>
        simp only [encodeVal, List.cons_append, List.nil_append]
        exact decodeVal_null g rest
      | pyList xs =>
        simp only [wfVal] at hw
        simp only [noTuples] at hnt
        simp only [encodeVal, List.length_cons, List.length_append, List.length_singleton,
          List.length_nil] at hfuel
        simp only [encodeVal, List.cons_append, List.append_assoc, List.singleton_append,
          List.nil_append]
        rw [decodeVal_bracket]
        rw [(ih g (by omega)).2.1 xs rest hw hnt (by omega)]
      | pyTuple xs =>
        simp only [noTuples] at hnt
        exact Bool.noConfusion hnt
      | pyDict kvs =>
        simp only [wfVal] at hw
        simp only [noTuples] at hnt
        simp only [encodeVal, List.length_cons, List.length_append, List.length_singleton,
          List.length_nil] at hfuel
        simp only [encodeVal, List.cons_append, List.append_assoc, List.singleton_append,
          List.nil_append]
        rw [decodeVal_brace]
        rw [(ih g (by omega)).2.2.2.2.1 kvs rest hw hnt (by omega)]
    · intro xs rest hw hnt hfuel
      obtain ⟨g, rfl⟩ : ∃ g, fuel = g + 1 := ⟨fuel - 1, by omega⟩
      cases xs with
      | nil =>
        simp only [encodeItems, List.nil_append]
        exact decodeElems_close g rest
      | cons x xs =>
        simp only [wfList, Bool.and_eq_true] at hw
        simp only [noTuplesList, Bool.and_eq_true] at hnt
        simp only [encodeItems, List.length_append] at hfuel
        simp only [encodeItems, List.append_assoc]
        obtain ⟨c, t, hct, hsp, hbr⟩ := encodeVal_head x hw.1
        rw [hct, List.cons_append]
        rw [decodeElems_cons g _ hbr]
        rw [← List.cons_append, ← hct]
        rw [(ih g (by omega)).1 x _ hw.1 hnt.1 (by omega) (boundaryOk_encodeTail xs rest)]
        simp only []
        rw [(ih g (by omega)).2.2.1 xs rest hw.2 hnt.2 (by omega)]
    · intro xs rest hw hnt hfuel
      obtain ⟨g, rfl⟩ : ∃ g, fuel = g + 1 := ⟨fuel - 1, by omega⟩
      cases xs with
      | nil =>
        simp only [encodeTail, List.nil_append]
        exact decodeElemsTail_close g rest
      | cons x xs =>
        simp only [wfList, Bool.and_eq_true] at hw
        simp only [noTuplesList, Bool.and_eq_true] at hnt
        simp only [encodeTail, List.length_cons, List.length_append] at hfuel
        simp only [encodeTail, List.cons_append, List.append_assoc]
        rw [decodeElemsTail_comma]
        rw [skipSpaces_cons_space]
        obtain ⟨c, t, hct, hsp, hbr⟩ := encodeVal_head x hw.1
        rw [hct, List.cons_append, skipSpaces_cons_of_ne _ hsp,
          ← List.cons_append, ← hct]
        rw [(ih g (by omega)).1 x _ hw.1 hnt.1 (by omega) (boundaryOk_encodeTail xs rest)]
        simp only []
        rw [(ih g (by omega)).2.2.1 xs rest hw.2 hnt.2 (by omega)]
    · intro k v rest hw hnt hfuel hb
      obtain ⟨g, rfl⟩ : ∃ g, fuel = g + 1 := ⟨fuel - 1, by omega⟩
      simp only [encodeMemberKV, List.length_cons, List.length_append] at hfuel
      simp only [encodeMemberKV, List.cons_append, List.append_assoc]
      rw [decodeMember_quote]
      have hk := decodeStrBody_escape k.data (':' :: ' ' :: (encodeVal v ++ rest))
      rw [hk]
      simp only []
      rw [skipSpaces_cons_space]
      obtain ⟨c, t, hct, hsp, hbr⟩ := encodeVal_head v hw
      rw [hct, List.cons_append, skipSpaces_cons_of_ne _ hsp, ← List.cons_append, ← hct]
      rw [(ih g (by omega)).1 v rest hw hnt (by omega) hb]
    · intro kvs rest hw hnt hfuel
      obtain ⟨g, rfl⟩ : ∃ g, fuel = g + 1 := ⟨fuel - 1, by omega⟩
      cases kvs with
      | nil =>
        simp only [encodeMembers, List.nil_append]
        exact decodeMembers_close g rest
      | cons kv kvs =>
        obtain ⟨k, v⟩ := kv
        simp only [wfMembers, Bool.and_eq_true] at hw
        simp only [noTuplesMembers, Bool.and_eq_true] at hnt
        simp only [encodeMembers, List.length_append] at hfuel
        simp only [encodeMembers, List.append_assoc]
        have hhd : ∃ t, encodeMemberKV (k, v) = '"' :: t :=
          ⟨escapeList k.data ++ '"' :: ':' :: ' ' :: encodeVal v, by simp [encodeMemberKV]⟩
        obtain ⟨t, hct⟩ := hhd
        rw [hct, List.cons_append]
        rw [decodeMembers_cons g _ (by decide)]
        rw [← List.cons_append, ← hct]
        rw [(ih g (by omega)).2.2.2.1 k v _ hw.1 hnt.1 (by omega)
          (boundaryOk_encodeMembersTail kvs rest)]
        simp only []
        rw [(ih g (by omega)).2.2.2.2.2 kvs rest hw.2 hnt.2 (by omega)]
    · intro kvs rest hw hnt hfuel
      obtain ⟨g, rfl⟩ : ∃ g, fuel = g + 1 := ⟨fuel - 1, by omega⟩
      cases kvs with
      | nil =>
        simp only [encodeMembersTail, List.nil_append]
        exact decodeMembersTail_close g rest
      | cons kv kvs =>
        obtain ⟨k, v⟩ := kv
        simp only [wfMembers, Bool.and_eq_true] at hw
        simp only [noTuplesMembers, Bool.and_eq_true] at hnt
        simp only [encodeMembersTail, List.length_cons, List.length_append] at hfuel
        simp only [encodeMembersTail, List.cons_append, List.append_assoc]
        rw [decodeMembersTail_comma]
        rw [skipSpaces_cons_space]
        have hhd : ∃ t, encodeMemberKV (k, v) = '"' :: t :=
          ⟨escapeList k.data ++ '"' :: ':' :: ' ' :: encodeVal v, by simp [encodeMemberKV]⟩
        obtain ⟨t, hct⟩ := hhd
        rw [hct, List.cons_append, skipSpaces_cons_of_ne _ (by decide),
          ← List.cons_append, ← hct]
        rw [(ih g (by omega)).2.2.2.1 k v _ hw.1 hnt.1 (by omega)
          (boundaryOk_encodeMembersTail kvs rest)]
        simp only []
        rw [(ih g (by omega)).2.2.2.2.2 kvs rest hw.2 hnt.2 (by omega)]

/-- json.loads reads back exactly the value json.dumps wrote, for any
tuple-free value of the modelled fragment. -/
theorem pyLoads_pyDumps (v : PyVal) (hw : wfVal v = true)
    (hnt : noTuples v = true) : pyLoads (pyDumps v) = some v := by
  have h := (decode_encode_all (2 * (encodeVal v).length + 2)).1 v [] hw hnt
    (by omega) rfl
  rw [List.append_nil] at h
  show (match decodeVal (2 * (encodeVal v).length + 2) (encodeVal v) with
    | some (v, []) => some v
    | _ => none) = some v
  rw [h]

/-! ### Facts about the database-state model -/

theorem pyDedupKeys_nodup : ∀ l : List Nat, l.Nodup → pyDedupKeys l = l
  | [], _ => by rw [pyDedupKeys]
  | x :: xs, h => by
    rw [List.nodup_cons] at h
    rw [pyDedupKeys]
    have hf : xs.filter (fun y => y ≠ x) = xs := by
      apply List.filter_eq_self.mpr
      intro a ha
      simp only [ne_eq, decide_eq_true_eq]
      exact fun he => h.1 (he ▸ ha)
    rw [hf, pyDedupKeys_nodup xs h.2]

/-! ### The claims -/

/-- C1: for every configured corpus name, check() either reports an explicit
ambiguity error when more than one corpus matches the name (never silently
picking one), binds to the sole match when exactly one exists, or creates
exactly one new corpus carrying the two indexed text filter attributes when
none matches; on success it returns no error string. -/
theorem check_corpus_trichotomy (corpusName : String) (listing : List Corpus)
    (newId : Nat)
    (hnodup : ((listing.filter fun c => c.name == corpusName).map Corpus.id).Nodup) :
    (1 < (listing.filter fun c => c.name == corpusName).length →
      check corpusName true listing newId =
        ⟨some ("Multiple Corpora exist with name " ++ corpusName), none, []⟩)
    ∧ (∀ c, listing.filter (fun c => c.name == corpusName) = [c] →
      check corpusName true listing newId = ⟨none, some c.id, []⟩)
    ∧ (listing.filter (fun c => c.name == corpusName) = [] →
      check corpusName true listing newId =
        ⟨none, some newId, [createCorpusRequest corpusName]⟩)
    ∧ (createCorpusRequest corpusName).filterAttributes =
      [⟨metadataStreamField, true, "FILTER_ATTRIBUTE_TYPE__TEXT",
        "FILTER_ATTRIBUTE_LEVEL__DOCUMENT"⟩,
       ⟨metadataRecordIdField, true, "FILTER_ATTRIBUTE_TYPE__TEXT",
        "FILTER_ATTRIBUTE_LEVEL__DOCUMENT"⟩] := by
  have hkeys : pyDedupKeys ((listing.filter fun c => c.name == corpusName).map Corpus.id) =
      (listing.filter fun c => c.name == corpusName).map Corpus.id :=
    pyDedupKeys_nodup _ hnodup
  unfold check
  simp only [Bool.not_true, Bool.false_eq_true, if_false, hkeys, List.length_map]
  refine ⟨fun hlen => ?_, fun c hc => ?_, fun hc => ?_, rfl⟩
  · rw [if_pos hlen]
  · rw [hc]
    rw [if_neg (by simp [hc])]
    rfl
  · rw [hc]
    rw [if_neg (by simp [hc])]
    rfl

/-- Witness for C1 at a concrete listing with a single matching corpus. -/
theorem check_corpus_trichotomy_witness :
    ((([⟨1, "docs"⟩, ⟨2, "other"⟩] : List Corpus).filter
      fun c => c.name == "docs").map Corpus.id).Nodup ∧
    ([⟨1, "docs"⟩, ⟨2, "other"⟩] : List Corpus).filter (fun c => c.name == "docs") =
      [⟨1, "docs"⟩] ∧
    check "docs" true [⟨1, "docs"⟩, ⟨2, "other"⟩] 7 = ⟨none, some 1, []⟩ :=
  ⟨by decide, by decide,
    (check_corpus_trichotomy "docs" [⟨1, "docs"⟩, ⟨2, "other"⟩] 7 (by decide)).2.1
      ⟨1, "docs"⟩ (by decide)⟩

/-- C5 counterexample: with exactly 60 seconds of validity left the code
refreshes the token (the test is expires - now <= 60), although the claim
says a call with 60 or more seconds remaining reuses the cached token with
no refresh. -/
theorem token_refresh_at_exactly_60 :
    (⟨"cached", 160⟩ : TokenState).jwtTokenExpiresTs - 100 = 60 ∧
    (indexerRequest ⟨"cached", 160⟩ 100 ⟨"fresh", 3600⟩).refreshCalls = 1 ∧
    (indexerRequest ⟨"cached", 160⟩ 100 ⟨"fresh", 3600⟩).headerToken = "fresh" := by
  refine ⟨by decide, ?_, ?_⟩ <;> rfl

/-- C5 as amended: a request issued when the remaining validity is at most
60 seconds performs exactly one refresh and proceeds with the fresh token;
with strictly more than 60 seconds remaining it reuses the cached token and
issues no refresh. -/
theorem token_refresh_boundary (st : TokenState) (now : Int) (resp : TokenResponse) :
    (st.jwtTokenExpiresTs - now ≤ 60 →
      indexerRequest st now resp = ⟨1, resp.accessToken, getJwtToken now resp⟩)
    ∧ (60 < st.jwtTokenExpiresTs - now →
      indexerRequest st now resp = ⟨0, st.jwtToken, st⟩) := by
  constructor <;> intro h <;> unfold indexerRequest
  · rw [if_pos h]
    rfl
  · rw [if_neg (by omega)]

/-- Witness for C5's amended theorem at concrete times on both sides of the
boundary. -/
theorem token_refresh_boundary_witness :
    ((⟨"a", 100⟩ : TokenState).jwtTokenExpiresTs - 90 ≤ 60 ∧
      indexerRequest ⟨"a", 100⟩ 90 ⟨"b", 50⟩ = ⟨1, "b", getJwtToken 90 ⟨"b", 50⟩⟩)
    ∧ (60 < (⟨"a", 200⟩ : TokenState).jwtTokenExpiresTs - 90 ∧
      indexerRequest ⟨"a", 200⟩ 90 ⟨"b", 50⟩ = ⟨0, "a", ⟨"a", 200⟩⟩) :=
  ⟨⟨by decide, (token_refresh_boundary ⟨"a", 100⟩ 90 ⟨"b", 50⟩).1 (by decide)⟩,
   ⟨by decide, (token_refresh_boundary ⟨"a", 200⟩ 90 ⟨"b", 50⟩).2 (by decide)⟩⟩

/-- C7: table-name and column-name normalization are the same function, that
function is idempotent, and it lowercases while replacing spaces and hyphens
with underscores, sending My Stream-1 to my_stream_1. -/
theorem name_normalization_idempotent :
    (∀ s, normalizeColumnName s = normalizeTableName s)
    ∧ (∀ s, normalizeTableName (normalizeTableName s) = normalizeTableName s)
    ∧ (∀ s, normalizeColumnName (normalizeColumnName s) = normalizeColumnName s)
    ∧ normalizeTableName "My Stream-1" = "my_stream_1"
    ∧ normalizeColumnName "My Stream-1" = "my_stream_1" :=
  ⟨fun _ => rfl, fun s => normalizeName_idem s, fun s => normalizeName_idem s,
    by decide, by decide⟩

/-- C9: _get_primary_keys always returns the empty list, so the MERGE
statement built by _merge_temp_table_to_final_table has no join keys and
every declared column (the normalized schema properties plus the two
metadata timestamp columns) is treated as a non-key column. -/
theorem merge_statement_no_primary_keys :
    (∀ s, getPrimaryKeys s = [])
    ∧ ∀ s props, (mergeStatementFor s props).pkColumns = []
      ∧ (mergeStatementFor s props).nonPkColumns = getSqlColumnDefinitions props
      ∧ (mergeStatementFor s props).insertColumns = getSqlColumnDefinitions props := by
  refine ⟨fun _ => rfl, fun s props => ⟨rfl, ?_, rfl⟩⟩
  show (getSqlColumnDefinitions props).filter
    (fun c => !((getPrimaryKeys s).contains c)) = getSqlColumnDefinitions props
  have : ∀ l : List String, l.filter (fun c => !(([] : List String).contains c)) = l := by
    intro l
    induction l with
    | nil => rfl
    | cons a l ihl => simp [List.filter_cons, ihl]
  exact this _

/-- C10: delete() with an empty id list returns without raising and issues
no remote request, and pre_sync() on a catalog with no overwrite-mode
stream returns without raising and issues no remote request, so remote
state is untouched in both cases (each function's non-empty branch would
instead raise on its mismatched keyword call before any request). -/
theorem empty_delete_and_presync_no_requests :
    indexerDelete [] = (none, [])
    ∧ ∀ catalog : List ConfiguredStream,
      (∀ s ∈ catalog, s.destinationSyncMode ≠ .overwrite) →
        preSync catalog = (none, []) := by
  refine ⟨rfl, fun catalog h => ?_⟩
  unfold preSync
  have hfil : catalog.filter
      (fun s => s.destinationSyncMode = DestinationSyncMode.overwrite) = [] := by
    rw [List.filter_eq_nil_iff]
    intro a ha
    simpa using h a ha
  rw [hfil]
  rfl

/-- Witness for C10 at a concrete catalog with only append-mode streams. -/
theorem empty_delete_and_presync_no_requests_witness :
    (∀ s ∈ [(⟨"s1", .append⟩ : ConfiguredStream), ⟨"s2", .appendDedup⟩],
      s.destinationSyncMode ≠ .overwrite)
    ∧ preSync [⟨"s1", .append⟩, ⟨"s2", .appendDedup⟩] = (none, []) :=
  ⟨by decide,
    empty_delete_and_presync_no_requests.2 [⟨"s1", .append⟩, ⟨"s2", .appendDedup⟩]
      (by decide)⟩

/-- C2 (documenting the code defect): _write_temp_table_to_final_table in
replace (dedupe) mode without merge-insert support raises the explicit
not-implemented error as its first action, before issuing any write and
with the database untouched — but the surrounding finalize never reaches
that guard: its staging step _write_files_to_new_table raises TypeError
unconditionally (the _create_table_for_loading call omits the required
batch_id argument), so finalize fails with that TypeError instead.  It
still fails before issuing any write: the database, and in particular the
final table's rows, is returned exactly as it was. -/
theorem merge_mode_unsupported_fails {α : Type} (pfx sfx : String)
    (tempName finalName : String) (st0 : DbState α)
    (freshUlid streamName : String) (b : String × List α)
    (bs : List (String × List α)) (st : DbState α) :
    writeTempTableToFinalTable ⟨.replace, pfx, sfx, false⟩ tempName finalName st0 =
      (some "Deduping was requested but merge-insert is not yet supported.", st0)
    ∧ finalizeBatches ⟨.replace, pfx, sfx, false⟩ freshUlid streamName (b :: bs) st =
        ⟨some missingBatchIdError, st⟩ :=
  ⟨rfl, rfl⟩

/-- C3 (documenting the code defect): append-mode finalize never loads the
staged rows.  At the failing input — stream s, two staged one-row files,
an empty database — finalize raises the TypeError from its staging step
(the _create_table_for_loading call omits the required batch_id argument)
before creating any table or writing any row, so the final table receives
none of the staged rows and the database is returned unchanged.  The
second conjunct traces the staging loop written below that call: even if
it were reached, its per-file to_sql if_exists="replace" write replaces
the whole staging table at each file, keeping only the last file's rows. -/
theorem finalize_append_staging_crash :
    finalizeBatches ⟨.append, "", "", false⟩ "u" "s"
      [("01", [10]), ("02", [20])] (⟨[]⟩ : DbState Nat) =
      ⟨some missingBatchIdError, ⟨[]⟩⟩
    ∧ (stagingLoop [[10], [20]] "s_02" (⟨[("s_02", [])]⟩ : DbState Nat)).lookup "s_02" =
        some [20] :=
  ⟨rfl, by decide⟩

/-- C8 counterexample: with an empty maximal batch id, the Python
batch_id-or-fresh-ULID default kicks in, so the temp table name is derived
from the fresh ULID, not from the maximal batch id as the claim states
(and the normalization also lowercases the id). -/
theorem temp_table_name_empty_max_id :
    maxKey ("", ([5] : List Nat)) [] = "" ∧
    getTempTableName "s" (some (maxKey ("", ([5] : List Nat)) [])) "01HX" = "s_01hx" ∧
    normalizeTableName ("s" ++ "_" ++ maxKey ("", ([5] : List Nat)) []) = "s_" ∧
    getTempTableName "s" (some (maxKey ("", ([5] : List Nat)) [])) "01HX" ≠
      normalizeTableName ("s" ++ "_" ++ maxKey ("", ([5] : List Nat)) []) := by
  refine ⟨by decide, by decide, by decide, by decide⟩

/-- C8 as amended: for a non-empty collection of batch handles whose
maximal batch id is non-empty, the id used to derive the temp table name is
the maximum batch id (a member of the keys that no key exceeds in Python's
string order), and the temp table name is the normalization of the stream
name, an underscore, and that id.  An empty maximal id would instead fall
back to a fresh ULID through the batch_id-or-default expression. -/
theorem finalize_max_batch_id {α : Type} (streamName freshUlid : String)
    (b : String × List α) (bs : List (String × List α))
    (hne : maxKey b bs ≠ "") :
    maxKey b bs ∈ (b :: bs).map Prod.fst
    ∧ (∀ k ∈ (b :: bs).map Prod.fst, lexLt (maxKey b bs).data k.data = false)
    ∧ getTempTableName streamName (some (maxKey b bs)) freshUlid =
        normalizeTableName (streamName ++ "_" ++ maxKey b bs) := by
  refine ⟨maxKey_mem b bs, maxKey_ub b bs, ?_⟩
  unfold getTempTableName
  simp only []
  rw [if_neg hne]

/-- Witness for C8's amended theorem at two concrete batches. -/
theorem finalize_max_batch_id_witness :
    maxKey ("01HA", ([1] : List Nat)) [("01HB", [2])] ≠ "" ∧
    maxKey ("01HA", ([1] : List Nat)) [("01HB", [2])] = "01HB" ∧
    getTempTableName "My Stream" (some (maxKey ("01HA", ([1] : List Nat)) [("01HB", [2])]))
        "F" =
      normalizeTableName ("My Stream" ++ "_" ++
        maxKey ("01HA", ([1] : List Nat)) [("01HB", [2])]) :=
  ⟨by decide, by decide,
    (finalize_max_batch_id "My Stream" "F" ("01HA", [1]) [("01HB", [2])] (by decide)).2.2⟩

/-- C6 counterexample: a tuple value is JSON-encoded as an array, so
decoding the stored text yields the corresponding list, not a structure
equal to the original tuple. -/
theorem normalize_tuple_not_roundtrip :
    normalizeValue (.pyTuple [.pyInt 1, .pyInt 2]) = .pyStr "[1, 2]" ∧
    pyLoads "[1, 2]" = some (.pyList [.pyInt 1, .pyInt 2]) ∧
    (.pyList [.pyInt 1, .pyInt 2] : PyVal) ≠ .pyTuple [.pyInt 1, .pyInt 2] := by
  refine ⟨?_, rfl, fun h => nomatch h⟩
  simp [normalizeValue, isPrimitive, pyDumps, encodeVal, encodeItems, encodeTail,
    intToChars, natToDigits]

/-- C6 as amended: _normalize passes dicts of primitive (str/int/float/
bool) values through unchanged, and replaces every non-primitive value with
its JSON text; decoding that text returns an equal structure for every
tuple-free value of the modelled fragment (tuples are encoded as JSON
arrays and decode to lists). -/
theorem normalize_metadata_spec (m : List (String × PyVal)) (v : PyVal)
    (hall : ∀ kv ∈ m, isPrimitive kv.2 = true)
    (hnp : isPrimitive v = false) (hw : wfVal v = true) (hnt : noTuples v = true) :
    normalizeMetadata m = m
    ∧ normalizeValue v = .pyStr (pyDumps v)
    ∧ pyLoads (pyDumps v) = some v := by
  refine ⟨?_, ?_, pyLoads_pyDumps v hw hnt⟩
  · unfold normalizeMetadata
    induction m with
    | nil => rfl
    | cons kv l ihl =>
      rw [List.map_cons]
      rw [ihl fun x hx => hall x (List.mem_cons_of_mem kv hx)]
      have hp := hall kv (List.mem_cons_self kv l)
      unfold normalizeValue
      rw [if_pos hp]
  · unfold normalizeValue
    rw [if_neg (by rw [hnp]; exact Bool.noConfusion)]

/-- Witness for C6's amended theorem at a primitive dict and a list value. -/
theorem normalize_metadata_spec_witness :
    (∀ kv ∈ [("a", PyVal.pyStr "x")], isPrimitive kv.2 = true)
    ∧ isPrimitive (.pyList [.pyInt 1]) = false
    ∧ wfVal (.pyList [.pyInt 1]) = true
    ∧ noTuples (.pyList [.pyInt 1]) = true
    ∧ normalizeMetadata [("a", PyVal.pyStr "x")] = [("a", PyVal.pyStr "x")]
    ∧ normalizeValue (.pyList [.pyInt 1]) = .pyStr (pyDumps (.pyList [.pyInt 1]))
    ∧ pyLoads (pyDumps (.pyList [.pyInt 1])) = some (.pyList [.pyInt 1]) := by
  have h := normalize_metadata_spec [("a", PyVal.pyStr "x")] (.pyList [.pyInt 1])
    (by decide) rfl (by simp [wfVal, wfList]) (by simp [noTuples, noTuplesList])
  exact ⟨by decide, rfl, by simp [wfVal, wfList], by simp [noTuples, noTuplesList],
    h.1, h.2.1, h.2.2⟩

end AirbyteSpec
